import Mathlib

/-!
Verification development for the pstring C library (string value core,
hex and UTF-8 encoders, and the string-keyed hash dictionary).

The embedding is shallow: C byte buffers become lists of naturals
(each element a byte value below 256), the pstring_t struct becomes a
Lean structure mirroring its fields, fallible operations return an
error code of type Int (the library error taxonomy) paired with the
updated value, and C loops become fuel-indexed structural recursions
whose fuel is the loop bound visible in the source.  Machine integer
quirks that the source relies on (signed char arithmetic, truncation
of a 64-bit complement to a 32-bit int, sign extension back to 64
bits) are modeled explicitly with Nat/Int arithmetic.

The build configuration modeled is the default x86-64 one: SSE2
available (scan kernel vector width 16, allocation alignment 16),
PSTRING_SSO_EXTEND = 0 on a 64-bit target (inline capacity 22),
overlong UTF-8 rejected.  The allocator never fails in the model, so
out-of-memory paths are not exercised; every error produced below is
produced by the control flow of the source, not by allocation failure.
-/

/-- Error codes from include/pstring/pstring.h, enum pstring_error. -/
def PSTRING_OK : Int := 0

/-- Error code PSTRING_ENOENT from the library error taxonomy. -/
def PSTRING_ENOENT : Int := -2

/-- Error code PSTRING_ENOMEM from the library error taxonomy. -/
def PSTRING_ENOMEM : Int := -12

/-- Error code PSTRING_EEXIST from the library error taxonomy. -/
def PSTRING_EEXIST : Int := -17

/-- Error code PSTRING_EINVAL from the library error taxonomy. -/
def PSTRING_EINVAL : Int := -22

/-- Inline (SSO) capacity: sizeof(struct pstring_base) + PSTRING_SSO_EXTEND - 2
on a 64-bit target with SSO extend 0, i.e. 24 - 2 = 22 bytes. -/
def PSTRING_SSO_SIZE : Nat := 22

/-- Scan-kernel alignment of the modeled build: alignof(__m128i) = 16 (SSE2). -/
def ALIGNMENT : Nat := 16

/-- C macro ALIGN(x, a) = ((x + (a - 1)) and not (a - 1)) for a power of two a,
equal to rounding x up to a multiple of a. -/
def ALIGN (x a : Nat) : Nat := (x + a - 1) / a * a

/-- C macro GROWTH(old, req) = ((old + req) * 2 - old) from pstring.c. -/
def GROWTH (old req : Nat) : Nat := (old + req) * 2 - old

/-- Interpretation of a stored byte as a C signed char (the x86 ABI the
source targets: char is signed, 8 bits). -/
def schar (b : Nat) : Int := if b < 128 then (b : Int) else (b : Int) - 256

/-- Model of the pstring_t struct.  The C value is a buffer pointer
overlaid with a union of the base fields (length, capacity, allocator)
and the SSO fields (an inline byte array and a one-byte length).  The
variant is derived exactly as in the source: a null buffer pointer
means inline; otherwise a non-null allocator means owned and a null
allocator means slice.  Field buffer = none models the null pointer;
hasAllocator models whether base.allocator is non-null.  Only the
fields of the active union member are meaningful, as in the C object.
Uninitialized bytes of freshly allocated buffers are modeled as 0. -/
structure CStr where
  buffer : Option (List Nat)
  hasAllocator : Bool
  baseLength : Nat
  baseCapacity : Nat
  ssoBuffer : List Nat
  ssoLength : Nat
deriving Repr, DecidableEq

/-- C pstrbuf: the active character buffer (sso.buffer when the buffer
pointer is null, otherwise the external buffer). -/
def pstrbuf (s : CStr) : List Nat :=
  match s.buffer with
  | some b => b
  | none => s.ssoBuffer

/-- C pstrsso: true when the value is stored inline (buffer pointer null). -/
def pstrsso (s : CStr) : Bool := s.buffer.isNone

/-- C pstrlen: blends sso.length and base.length on the null-buffer mask. -/
def pstrlen (s : CStr) : Nat :=
  if s.buffer.isNone then s.ssoLength else s.baseLength

/-- C pstrcap: blends PSTRING_SSO_SIZE and base.capacity on the null-buffer mask. -/
def pstrcap (s : CStr) : Nat :=
  if s.buffer.isNone then PSTRING_SSO_SIZE else s.baseCapacity

/-- C pstrallocator returns base.allocator when the buffer pointer is
non-null and NULL otherwise; the model records whether the result is
non-null. -/
def pstrallocator (s : CStr) : Bool := !s.buffer.isNone && s.hasAllocator

/-- C pstrowned: inline values and values with an allocator are resizable. -/
def pstrowned (s : CStr) : Bool := pstrsso s || pstrallocator s

/-- C pstrget from pstring.h: returns pstrbuf(str)[i] when i < pstrlen(str)
and the null character otherwise. -/
def pstrget (s : CStr) (i : Nat) : Nat :=
  if i < pstrlen s then (pstrbuf s).getD i 0 else 0

/-- C strlen over a modeled buffer: the number of bytes before the first
null byte (the model assumes the terminator is inside the list). -/
def cstrlen (l : List Nat) : Nat := (l.takeWhile (fun b => b ≠ 0)).length

/-- C pstr__nlen (strnlen): like cstrlen but capped at max. -/
def pstr__nlen (l : List Nat) (max : Nat) : Nat := min (cstrlen l) max

/-- C pstr__setlen: store the length in the active union member and, for
owned values, write a null terminator at buffer[length].  List.set is a
no-op out of range; in the C object the write stays in bounds because
length never exceeds the capacity and owned buffers hold capacity + 1
bytes. -/
def pstr__setlen (s : CStr) (length : Nat) : CStr :=
  let s := if pstrsso s then { s with ssoLength := length }
           else { s with baseLength := length }
  if pstrowned s then
    if pstrsso s then { s with ssoBuffer := s.ssoBuffer.set length 0 }
    else { s with buffer := some ((pstrbuf s).set length 0) }
  else s

/-- C pstralloc with a given capacity; explicitAlloc records whether the
caller passed a non-null allocator (when it did not, the standard
allocator is used and small capacities select the inline variant).
Allocation always succeeds in the model; fresh bytes are modeled as 0. -/
def pstralloc (capacity : Nat) (explicitAlloc : Bool) : CStr :=
  if !explicitAlloc && capacity ≤ PSTRING_SSO_SIZE then
    { buffer := none, hasAllocator := false, baseLength := 0, baseCapacity := 0
      ssoBuffer := List.replicate (PSTRING_SSO_SIZE + 1) 0, ssoLength := 0 }
  else
    let cap := ALIGN (capacity + 1) ALIGNMENT
    { buffer := some (List.replicate cap 0), hasAllocator := true
      baseLength := 0, baseCapacity := cap - 1
      ssoBuffer := [], ssoLength := 0 }

/-- C memcpy of src into dst starting at index 0 (dst keeps its tail). -/
def memcpy0 (dst src : List Nat) : List Nat := src ++ dst.drop src.length

/-- C pstrnew: allocate then copy len bytes of str and set the length.
When len is 0 and the first byte is not the terminator, strlen is used. -/
def pstrnew (str : List Nat) (len : Nat) (explicitAlloc : Bool) : CStr :=
  let len := if len = 0 ∧ str.getD 0 0 ≠ 0 then cstrlen str else len
  let out := pstralloc len explicitAlloc
  let out :=
    if pstrsso out then { out with ssoBuffer := memcpy0 out.ssoBuffer (str.take len) }
    else { out with buffer := some (memcpy0 (pstrbuf out) (str.take len)) }
  pstr__setlen out len

/-- C pstrwrap (second revision in the source): build a slice over a
foreign buffer.  A zero length is recomputed with strnlen (bounded by a
nonzero capacity) or strlen; a zero capacity is set to the length. -/
def pstrwrap (buffer : List Nat) (length capacity : Nat) : CStr :=
  let length := if length = 0 then
      (if capacity > 0 then pstr__nlen buffer capacity else cstrlen buffer)
    else length
  let capacity := if capacity = 0 then length else capacity
  { buffer := some buffer, hasAllocator := false
    baseLength := length, baseCapacity := capacity
    ssoBuffer := [], ssoLength := 0 }

/-- C pstrslice (second revision): clamp the half-open index range to the
string and build a slice whose capacity equals its length; the buffer
pointer of the slice is the source buffer advanced by the start index. -/
def pstrslice (s : CStr) (a b : Nat) : CStr :=
  let b := min b (pstrlen s)
  let a := min a b
  { buffer := some ((pstrbuf s).drop a), hasAllocator := false
    baseLength := b - a, baseCapacity := b - a
    ssoBuffer := [], ssoLength := 0 }

/-- C pstrrange with a non-null str argument: the two raw pointers are
modeled as byte offsets from pstrbuf(str); they are clamped to the byte
range of str, then a slice with capacity equal to length is built.
The null-str variant wraps raw pointers without clamping and is used
only by internal callers modeled directly at the byte level below. -/
def pstrrange (s : CStr) (f t : Nat) : CStr :=
  let t := min t (pstrlen s)
  let f := min f t
  { buffer := some ((pstrbuf s).drop f), hasAllocator := false
    baseLength := t - f, baseCapacity := t - f
    ssoBuffer := [], ssoLength := 0 }

/-- C pstrgrow: rejects a zero count and values that are neither inline
nor owned (slices) with PSTRING_EINVAL, leaving the value untouched.
An inline value is promoted to owned by allocating and copying the
inline bytes; an owned value is reallocated (contents preserved, new
bytes modeled as 0). -/
def pstrgrow (s : CStr) (count : Nat) : Int × CStr :=
  if count = 0 || (!pstrsso s && !pstrallocator s) then (PSTRING_EINVAL, s)
  else if pstrsso s then
    let tmp := pstralloc (PSTRING_SSO_SIZE + count) false
    let buf := memcpy0 (pstrbuf tmp) (s.ssoBuffer.take PSTRING_SSO_SIZE)
    (PSTRING_OK, { tmp with buffer := some buf, baseLength := s.ssoLength })
  else
    let old := pstrcap s + 1
    let capacity := ALIGN (old + count) ALIGNMENT
    let buf := (pstrbuf s).take old ++ List.replicate (capacity - old) 0
    (PSTRING_OK, { s with buffer := some buf, baseCapacity := capacity - 1 })

/-- C pstrreserve: grow by GROWTH(len, count) when len + count exceeds the
capacity; any nonzero code from pstrgrow is reported as PSTRING_ENOMEM
and the value is left as pstrgrow left it (untouched on EINVAL). -/
def pstrreserve (s : CStr) (count : Nat) : Int × CStr :=
  if count > 0 && pstrlen s + count > pstrcap s then
    match pstrgrow s (GROWTH (pstrlen s) count) with
    | (code, s') => if code ≠ PSTRING_OK then (PSTRING_ENOMEM, s') else (PSTRING_OK, s')
  else (PSTRING_OK, s)

/-- C pstrfree: calls deallocate when pstrallocator(str) is non-null and
does nothing else; in particular it never writes to *str.  The Bool
component records whether deallocate was invoked on the buffer. -/
def pstrfree (s : CStr) : CStr × Bool := (s, pstrallocator s)

/-- Vector width of the modeled scan kernel (SSE2 build: g_impl.size = 16). -/
def gImplSize : Nat := 16

/-- Model of g_impl.compare (pstr__compare_sse): a 16-bit mask whose bit j
is set when the two blocks agree at byte j (movemask of cmpeq). -/
def compareMask (a b : List Nat) : Nat :=
  (List.range gImplSize).foldl
    (fun m j => if a.getD j 0 = b.getD j 0 then m ||| (1 <<< j) else m) 0

/-- Model of g_impl.match_set (pstr__match_set_sse): a 16-bit mask whose
bit j is set when block byte j equals one of the first setlen set bytes. -/
def matchSetMask (block set : List Nat) (setlen : Nat) : Nat :=
  (List.range gImplSize).foldl
    (fun m j => if (set.take setlen).contains (block.getD j 0) then m ||| (1 <<< j) else m) 0

/-- Modelled from the spec: pf_clz from the pf_bitwise.h header, which is
not part of the sources.  The spec describes the scan template as
trailing-zero-count / leading-zero-count-and-mask of the per-lane
bitmask; pf_clz is modeled as the 64-bit leading-zero count, total with
pf_clz 0 = 64. -/
def pf_clzGo (x : Nat) : Nat → Nat
  | 0 => 64
  | n + 1 => if x.testBit n then 63 - n else pf_clzGo x n

/-- Modelled from the spec: 64-bit count-leading-zeros (see pf_clzGo). -/
def pf_clz (x : Nat) : Nat := pf_clzGo x 64

/-- Modelled from the spec: pf_ctz64 from the pf_bitwise.h header, which
is not part of the sources; the 64-bit trailing-zero count, total with
pf_ctz64 0 = 64. -/
def pf_ctz64Go (x : Nat) : Nat → Nat → Nat
  | _, 0 => 64
  | i, f + 1 => if x.testBit i then i else pf_ctz64Go x (i + 1) f

/-- Modelled from the spec: 64-bit count-trailing-zeros (see pf_ctz64Go). -/
def pf_ctz64 (x : Nat) : Nat := pf_ctz64Go x 0 64

/-- C pstr__clz_masked(x, bits) = pf_clz(x and ((1 shl bits) - 1)) - bits,
as an Int since the C return type is int. -/
def pstr__clz_masked (x : Nat) (bits : Nat) : Int :=
  (pf_clz (x &&& ((1 <<< bits) - 1)) : Int) - (bits : Int)

/-- Bit pattern of the C expression (int)(~u) for a 64-bit unsigned u:
complement in 64 bits, then truncation to the low 32 bits. -/
def notTrunc32 (u : Nat) : Nat := ((2 ^ 64 - 1) - u % 2 ^ 64) % 2 ^ 32

/-- Bit pattern of sign-extending a 32-bit int pattern back to 64 bits
(what happens when the int is passed to the uint64_t parameter of
pstr__clz_masked or pf_ctz64). -/
def sext32 (v : Nat) : Nat := if v < 2 ^ 31 then v else 2 ^ 64 - 2 ^ 32 + v

/-- SIMD loop of pstrcmp (second revision of pstring.c).  Per iteration
the source computes int result = ~g_impl.compare(left + i, right + i);
on a nonzero result it returns leftBuf[bit] - rightBuf[bit] (signed
chars, and indexed from the start of the buffers, not from block i)
with bit = pstr__clz_masked(result, g_impl.size).  The fuel is the
remaining length, which bounds the number of 16-byte steps.  Sum.inl is
an early return, Sum.inr i falls through to the scalar tail at i. -/
def pstrcmpSimd (lb rb : List Nat) (length : Nat) : Nat → Nat → Sum Int Nat
  | i, 0 => Sum.inr i
  | i, f + 1 =>
    if length - i ≥ gImplSize then
      let result := notTrunc32 (compareMask (lb.drop i) (rb.drop i))
      if result ≠ 0 then
        let bit := (pstr__clz_masked (sext32 result) 16).toNat
        Sum.inl (schar (lb.getD bit 0) - schar (rb.getD bit 0))
      else pstrcmpSimd lb rb length (i + gImplSize) f
    else Sum.inr i

/-- Scalar tail of pstrcmp: first index with differing bytes decides the
result as a difference of signed chars.  Fuel bounds the loop by the
length. -/
def pstrcmpScalar (lb rb : List Nat) (length : Nat) : Nat → Nat → Int
  | _, 0 => 0
  | i, f + 1 =>
    if i < length then
      if lb.getD i 0 ≠ rb.getD i 0 then schar (lb.getD i 0) - schar (rb.getD i 0)
      else pstrcmpScalar lb rb length (i + 1) f
    else 0

/-- C pstrcmp (second revision): SIMD blocks over the common length, then
a per-byte tail.  The pointer-equality shortcut of the source cannot
fire on distinct model values and is omitted. -/
def pstrcmp (l r : CStr) : Int :=
  let length := min (pstrlen l) (pstrlen r)
  match pstrcmpSimd (pstrbuf l) (pstrbuf r) length 0 length with
  | Sum.inl res => res
  | Sum.inr i => pstrcmpScalar (pstrbuf l) (pstrbuf r) length i length

/-- SIMD loop of pstrspn.  The source tests if (~result) on the int
result of match_set, takes bit = result ? pf_ctz64(~result) : 0 and
returns i + bit.  The complement and the sign extension of the int
argument are modeled bit-exactly.  Sum.inl is an early return, Sum.inr
falls through to the scalar tail. -/
def pstrspnSimd (buffer set : List Nat) (setlen length : Nat) : Nat → Nat → Sum Nat Nat
  | i, 0 => Sum.inr i
  | i, f + 1 =>
    if length - i ≥ gImplSize then
      let result := matchSetMask (buffer.drop i) set setlen
      if notTrunc32 result ≠ 0 then
        let bit := if result ≠ 0 then pf_ctz64 (sext32 (notTrunc32 result)) else 0
        Sum.inl (i + bit)
      else pstrspnSimd buffer set setlen length (i + gImplSize) f
    else Sum.inr i

/-- Scalar tail of pstrspn: return i at the first byte not in the set;
when the loop runs off the end of the string the source returns 0. -/
def pstrspnScalar (buffer set : List Nat) (setlen length : Nat) : Nat → Nat → Nat
  | _, 0 => 0
  | i, f + 1 =>
    if i < length then
      if (set.take setlen).contains (buffer.getD i 0) then
        pstrspnScalar buffer set setlen length (i + 1) f
      else i
    else 0

/-- C pstrspn (second revision): length of the leading run of bytes of
str that are members of set.  The set is a C string bounded by
PSTRING_MAX_SET = 256. -/
def pstrspn (s : CStr) (set : List Nat) : Nat :=
  let buffer := pstrbuf s
  let length := pstrlen s
  let setlen := pstr__nlen set 256
  match pstrspnSimd buffer set setlen length 0 length with
  | Sum.inl r => r
  | Sum.inr i => pstrspnScalar buffer set setlen length i length

/-- The hexdigits string literal of encoding.c, including its null
terminator: indices 0 to 16 are readable bytes of the C object. -/
def hexdigits : List Nat := [48, 49, 50, 51, 52, 53, 54, 55, 56, 57, 65, 66, 67, 68, 69, 70, 0]

/-- Read hexdigits at a C int index.  Indices outside the 17-byte object
are an out-of-bounds read in the source (undefined behavior), modeled
as none. -/
def hexdigitAt (i : Int) : Option Nat :=
  if 0 ≤ i ∧ i < 17 then some (hexdigits.getD i.toNat 0) else none

/-- One byte of pstrenc_hex output: hexdigits[*in / 16] and
hexdigits[*in % 16], where *in is a signed char and / and % are C
truncating division and remainder. -/
def pstrenc_hexByte (b : Nat) : Option (List Nat) := do
  let hi ← hexdigitAt (Int.tdiv (schar b) 16)
  let lo ← hexdigitAt (Int.tmod (schar b) 16)
  pure [hi, lo]

/-- C pstrenc_hex at the string-value level: appends two hex digits per
source byte to dst and sets the length to pstrlen(dst) + 2 * pstrlen(src).
Returns none when a byte makes the source index the hexdigits table out
of bounds. -/
def pstrenc_hex (dst src : List Nat) : Option (List Nat) :=
  (src.mapM pstrenc_hexByte).map (fun pieces => dst ++ pieces.flatten)

/-- C hex2num: value of a hex digit character, or 17 for a non-digit.
Byte values at or above 128 fail all three range tests whether the char
is read signed or unsigned. -/
def hex2num (c : Nat) : Nat :=
  if 48 ≤ c ∧ c ≤ 57 then c - 48
  else if 97 ≤ c ∧ c ≤ 102 then c - 97 + 10
  else if 65 ≤ c ∧ c ≤ 70 then c - 65 + 10
  else 17

/-- Decode loop of pstrdec_hex: while (in + 1 < end) consume two digits;
none models the PSTRING_EINVAL early return on a non-digit. -/
def pstrdec_hexPairs : List Nat → Option (List Nat)
  | [] => some []
  | [_] => some []
  | hi :: lo :: rest =>
    let h := hex2num hi
    let l := hex2num lo
    if h > 16 ∨ l > 16 then none
    else (pstrdec_hexPairs rest).map (fun d => (h * 16 + l) :: d)

/-- C pstrdec_hex at the string-value level.  The decoded bytes are
written starting at pstrend(dst), but the final pstr__setlen uses
pstrlen(src) / 2 alone, so the value becomes the first
pstrlen(src) / 2 bytes of the buffer (old dst bytes followed by the
decoded bytes).  An odd source length or a non-digit yields
PSTRING_EINVAL with dst unchanged. -/
def pstrdec_hex (dst src : List Nat) : Int × List Nat :=
  if src.length % 2 ≠ 0 then (PSTRING_EINVAL, dst)
  else match pstrdec_hexPairs src with
    | none => (PSTRING_EINVAL, dst)
    | some decoded => (PSTRING_OK, (dst ++ decoded).take (src.length / 2))

/-- Search step of the pstrstr model: first index m at or after the
cursor where sub occurs in s; fuel bounds the scan by the remaining
length. -/
def strstrGo (s sub : List Nat) : Nat → Nat → Option Nat
  | _, 0 => none
  | m, f + 1 =>
    if m + sub.length ≤ s.length then
      if (s.drop m).take sub.length = sub then some m
      else strstrGo s sub (m + 1) f
    else none

/-- C pstrstr over the slice of s that starts at the cursor: null or
too-long needles give none, the empty needle matches at the cursor, and
otherwise the leftmost occurrence is returned (pstrchr plus memcmp in
the source). -/
def strstrAt (s : List Nat) (cursor : Nat) (sub : List Nat) : Option Nat :=
  if sub.length > s.length - cursor then none
  else if sub.length = 0 then some cursor
  else strstrGo s sub cursor (s.length + 1 - cursor)

/-- Replacement loop of pstrrepl at the string-value level.  Each
iteration finds the next match at or after the cursor, splices dst over
the src occurrence (the two memcpy calls of the source), and moves the
cursor to just after the inserted replacement.  The fuel is the max
counter of the source: the C loop runs while max-- > 0.  pstrreserve
always succeeds in the model. -/
def pstrreplLoop (src dst : List Nat) : Nat → List Nat → Nat → Int × List Nat
  | 0, s, _ => (PSTRING_OK, s)
  | f + 1, s, cursor =>
    match strstrAt s cursor src with
    | none => (PSTRING_OK, s)
    | some m =>
      let s' := s.take m ++ dst ++ s.drop (m + src.length)
      pstrreplLoop src dst f s' (m + dst.length)

/-- C pstrrepl at the string-value level: replace at most max
occurrences of src by dst in s; max = 0 is remapped to SIZE_MAX.  The
source validates only that the three pointers are non-null; an empty
src is not rejected. -/
def pstrrepl (s src dst : List Nat) (max : Nat) : Int × List Nat :=
  let max := if max = 0 then 2 ^ 64 - 1 else max
  pstrreplLoop src dst max s 0

/-- The overlong table of pstrdec_utf8: minimal codepoint per sequence
length. -/
def overlongTable : List Nat := [0, 0x80, 0x800, 0x10000]

/-- C writeutf8 from encoding.c: the UTF-8 bytes of a codepoint; values
above 0x10FFFF produce no output (the function falls through without
writing). -/
def writeutf8 (c : Nat) : List Nat :=
  if c ≤ 0x7F then [c]
  else if c ≤ 0x7FF then
    [((c >>> 6) &&& 0x1F) ||| 0xC0,
     (c &&& 0x3F) ||| 0x80]
  else if c ≤ 0xFFFF then
    [((c >>> 12) &&& 0x0F) ||| 0xE0,
     ((c >>> 6) &&& 0x3F) ||| 0x80,
     (c &&& 0x3F) ||| 0x80]
  else if c ≤ 0x10FFFF then
    [((c >>> 18) &&& 0x07) ||| 0xF0,
     ((c >>> 12) &&& 0x3F) ||| 0x80,
     ((c >>> 6) &&& 0x3F) ||| 0x80,
     (c &&& 0x3F) ||| 0x80]
  else []

/-- C pstrenc_utf8 at the string-value level: append the UTF-8 bytes of
every codepoint to dst (the length update in the source is
out - pstrbuf(dst), i.e. an append). -/
def pstrenc_utf8 (dst : List Nat) (src : List Nat) : List Nat :=
  dst ++ (src.map writeutf8).flatten

/-- Loop state of pstrdec_utf8: the C locals left, mask, shift, code and
min.  In the source left starts at 0 and the other four start
uninitialized; the model starts them at 0 (they are never read before
being set, as decGo_state_congr proves).  The C shift is an int that
transiently reaches -6 after the last continuation byte of a sequence;
the Nat model clamps that dead value at 0. -/
structure Utf8State where
  left : Nat
  mask : Nat
  shift : Nat
  code : Nat
  seqMin : Nat
deriving Repr, DecidableEq

/-- Initial decoder state (left = 0; see Utf8State on the other fields). -/
def utf8Zero : Utf8State := ⟨0, 0, 0, 0, 0⟩

/-- Shared tail of the pstrdec_utf8 loop body: code |= (c and mask) shl
shift; mask = 0x3F; shift -= 6; and when --left reaches 0, reject
overlong forms (code < min becomes the replacement character, the
failure label) or emit the codepoint. -/
def utf8Accum (st : Utf8State) (c : Nat) : Utf8State × Option Nat :=
  let code := st.code ||| ((c &&& st.mask) <<< st.shift)
  let st' : Utf8State :=
    { left := st.left - 1, mask := 0x3F, shift := st.shift - 6
      code := code, seqMin := st.seqMin }
  if st.left - 1 = 0 then
    if code < st.seqMin then (st', some 0xFFFD)
    else (st', some code)
  else (st', none)

/-- One byte of pstrdec_utf8.  With no sequence in progress, an ASCII
byte is emitted directly, a lead byte initializes the state (the mask
is (1 shl (7 - left)) - 1, the shift (left - 1) * 6, the minimum from
the overlong table) and immediately accumulates, and anything else is
the failure label: emit U+FFFD and clear left.  Inside a sequence a
non-continuation byte is likewise a failure. -/
def utf8Step (st : Utf8State) (c : Nat) : Utf8State × Option Nat :=
  if st.left = 0 then
    if c &&& 0x80 = 0 then (st, some c)
    else if c &&& 0xF8 = 0xF0 then
      utf8Accum ⟨4, (1 <<< 3) - 1, 18, 0, overlongTable.getD 3 0⟩ c
    else if c &&& 0xF0 = 0xE0 then
      utf8Accum ⟨3, (1 <<< 4) - 1, 12, 0, overlongTable.getD 2 0⟩ c
    else if c &&& 0xE0 = 0xC0 then
      utf8Accum ⟨2, (1 <<< 5) - 1, 6, 0, overlongTable.getD 1 0⟩ c
    else ({ st with left := 0 }, some 0xFFFD)
  else if c &&& 0xC0 ≠ 0x80 then ({ st with left := 0 }, some 0xFFFD)
  else utf8Accum st c

/-- Byte loop of pstrdec_utf8: for (; chr < end and count < max; chr++).
Returns the decoded codepoints and the unconsumed bytes (nonempty
exactly when the output limit stopped the loop early). -/
def pstrdec_utf8Go : List Nat → Utf8State → List Nat → Nat → List Nat × List Nat
  | [], _, acc, _ => (acc, [])
  | c :: rest, st, acc, max =>
    if acc.length < max then
      match utf8Step st c with
      | (st', none) => pstrdec_utf8Go rest st' acc max
      | (st', some v) => pstrdec_utf8Go rest st' (acc ++ [v]) max
    else (acc, c :: rest)

/-- C pstrdec_utf8: decode src into at most max codepoints; if input
remains when the output array is full the source returns
PSTRING_ENOMEM, otherwise PSTRING_OK with the decoded count. -/
def pstrdec_utf8 (max : Nat) (src : List Nat) : Int × List Nat :=
  let out := pstrdec_utf8Go src utf8Zero [] max
  (if out.2.isEmpty then PSTRING_OK else PSTRING_ENOMEM, out.1)

/-- Bucket width of the dictionary (PSTRDICT_BUCKET_SIZE). -/
def PSTRDICT_BUCKET_SIZE : Nat := 16

/-- Metadata tag for an empty slot (PSTRDICT_EMPTY). -/
def PSTRDICT_EMPTY : Nat := 0

/-- Metadata tag for a tombstone (PSTRDICT_TOMB). -/
def PSTRDICT_TOMB : Nat := 1

/-- The key and value pointers stored in one dictionary slot.  Keys are
modeled by their byte content (pstrequal compares content); values are
modeled as Nat with 0 playing the role of the null pointer. -/
structure DictPair where
  key : List Nat
  value : Nat
deriving Repr, DecidableEq

/-- One dictionary bucket: PSTRDICT_BUCKET_SIZE metadata bytes and as
many pair slots.  A slot whose pair was never written is modeled as
none (the C object holds indeterminate bytes there; pstrdict_finsert
rejects a null key, which is how such slots are skipped during a
rehash). -/
structure Bucket where
  meta : List Nat
  pairs : List (Option DictPair)
deriving Repr, DecidableEq

/-- A bucket fresh from the allocator after pstrdict_clear: metadata all
empty; the pair array is uninitialized in C and modeled as none. -/
def emptyBucket : Bucket := ⟨List.replicate PSTRDICT_BUCKET_SIZE 0, List.replicate PSTRDICT_BUCKET_SIZE none⟩

/-- Model of struct pstrdict_t: the bucket array, the live count, the
slot capacity, and the hash function chosen at pstrdict_new time. -/
structure Dict where
  buckets : List Bucket
  count : Nat
  capacity : Nat
  hash : List Nat → Nat

/-- C bucket_match: a 16-bit mask whose bit i is set when metadata byte i
equals the probe byte (movemask of cmpeq in the SSE2 build). -/
def bucket_match (meta : List Nat) (part : Nat) : Nat :=
  (List.range PSTRDICT_BUCKET_SIZE).foldl
    (fun m i => if meta.getD i 0 = part then m ||| (1 <<< i) else m) 0

/-- C round_pow2: the bit-twiddling next-power-of-two on a 64-bit size_t,
including the wraparound that maps 0 to 0. -/
def round_pow2 (v : Nat) : Nat :=
  let v := (v + 2 ^ 64 - 1) % 2 ^ 64
  let v := v ||| (v >>> 1)
  let v := v ||| (v >>> 2)
  let v := v ||| (v >>> 4)
  let v := v ||| (v >>> 8)
  let v := v ||| (v >>> 16)
  let v := v ||| (v >>> 32)
  (v + 1) % 2 ^ 64

/-- C hash_part: low byte of the hash, with 0 and 1 remapped past the
empty and tombstone tags (both end at 2). -/
def hash_part (hash : Nat) : Nat :=
  let part := hash % 256
  let part := if part = PSTRDICT_EMPTY then part + 1 else part
  if part = PSTRDICT_TOMB then part + 1 else part

/-- C bitset_next: index of the lowest set bit, clearing it is done at
the call sites of the model.  The C loop never terminates on 0; callers
only invoke it on nonzero masks, and the model returns 64 there. -/
def bitset_nextGo (set : Nat) : Nat → Nat → Nat
  | _, 0 => 64
  | i, f + 1 => if set.testBit i then i else bitset_nextGo set (i + 1) f

/-- Index of the lowest set bit of a bucket mask (see bitset_nextGo). -/
def bitset_next (set : Nat) : Nat := bitset_nextGo set 0 64

/-- Clearing bit i of a mask: the effect bitset_next has on *set in C. -/
def clearBit (set i : Nat) : Nat := set &&& ((2 ^ 64 - 1) - (1 <<< i))

/-- Number of buckets, dict->capacity / PSTRDICT_BUCKET_SIZE. -/
def numBuckets (d : Dict) : Nat := d.capacity / PSTRDICT_BUCKET_SIZE

/-- C iter_init: index of the bucket holding slot hash mod capacity. -/
def iter_init (d : Dict) (hash : Nat) : Nat :=
  (hash &&& (d.capacity - 1)) / PSTRDICT_BUCKET_SIZE

/-- C iter_next: advance to the next bucket, wrapping at the array end. -/
def iter_next (d : Dict) (b : Nat) : Nat :=
  if b + 1 ≥ numBuckets d then 0 else b + 1

/-- C pstrdict_clear: zero the count and every metadata strip; the pair
arrays are left as they are. -/
def pstrdict_clear (d : Dict) : Dict :=
  { d with count := 0
           buckets := d.buckets.map (fun b => { b with meta := List.replicate PSTRDICT_BUCKET_SIZE 0 }) }

/-- C grow_empty: reallocate the bucket array to the new capacity
(retained buckets keep their pair arrays, new ones are fresh) and
clear.  Allocation succeeds in the model. -/
def grow_empty (d : Dict) (capacity : Nat) : Dict :=
  let nb := capacity / PSTRDICT_BUCKET_SIZE
  let buckets := d.buckets.take nb ++ List.replicate (nb - d.buckets.length) emptyBucket
  pstrdict_clear { d with buckets := buckets, capacity := capacity }

/-- Write a pair into slot i of bucket b and tag its fingerprint,
incrementing the count (the insertion epilogue shared by
pstrdict_set, pstrdict_insert and pstrdict_finsert). -/
def insertAt (d : Dict) (b i part : Nat) (key : List Nat) (value : Nat) : Dict :=
  let bk := d.buckets.getD b emptyBucket
  let bk := { meta := bk.meta.set i part, pairs := bk.pairs.set i (some ⟨key, value⟩) }
  { d with buckets := d.buckets.set b bk, count := d.count + 1 }

/-- Overwrite the value of slot i of bucket b (the pstrdict_set match
path: the stored key and the count stay). -/
def updateValue (d : Dict) (b i : Nat) (value : Nat) : Dict :=
  let bk := d.buckets.getD b emptyBucket
  let bk := { bk with pairs := bk.pairs.set i ((bk.pairs.getD i none).map (fun p => { p with value := value })) }
  { d with buckets := d.buckets.set b bk }

/-- Tombstone slot i of bucket b and decrement the count (the
pstrdict_remove match path; the pair itself is left in place). -/
def removeAt (d : Dict) (b i : Nat) : Dict :=
  let bk := d.buckets.getD b emptyBucket
  let bk := { bk with meta := bk.meta.set i PSTRDICT_TOMB }
  { d with buckets := d.buckets.set b bk, count := d.count - 1 }

/-- Inner while (matches) loop of pstrdict_get: walk the set bits in
ascending order and return the stored value at the first slot whose key
content equals the probe key.  A none slot in the match set would make
the C code call pstrequal on an indeterminate key pointer; slots carry
a fingerprint tag only after being written, so the branch is
unreachable and the model skips it. -/
def matchLoopGet (pairs : List (Option DictPair)) (key : List Nat) : Nat → Nat → Option Nat
  | _, 0 => none
  | ms, f + 1 =>
    if ms ≠ 0 then
      let i := bitset_next ms
      match pairs.getD i none with
      | some p => if key = p.key then some p.value else matchLoopGet pairs key (clearBit ms i) f
      | none => matchLoopGet pairs key (clearBit ms i) f
    else none

/-- Inner while (matches) loop of pstrdict_set, pstrdict_insert and
pstrdict_remove: like matchLoopGet but returning the slot index. -/
def matchLoopFind (pairs : List (Option DictPair)) (key : List Nat) : Nat → Nat → Option Nat
  | _, 0 => none
  | ms, f + 1 =>
    if ms ≠ 0 then
      let i := bitset_next ms
      match pairs.getD i none with
      | some p => if key = p.key then some i else matchLoopFind pairs key (clearBit ms i) f
      | none => matchLoopFind pairs key (clearBit ms i) f
    else none

/-- Bucket probe loop of pstrdict_get.  The outer none means the C loop
would revisit buckets forever (no empty slot anywhere); the fuel is the
bucket count, one full pass.  The inner Option is the C return value
(none for NULL). -/
def getLoop (d : Dict) (key : List Nat) (part : Nat) : Nat → Nat → Option (Option Nat)
  | _, 0 => none
  | b, f + 1 =>
    let bk := d.buckets.getD b emptyBucket
    match matchLoopGet bk.pairs key (bucket_match bk.meta part) PSTRDICT_BUCKET_SIZE with
    | some v => some (some v)
    | none =>
      if bucket_match bk.meta PSTRDICT_EMPTY ≠ 0 then some none
      else getLoop d key part (iter_next d b) f

/-- C pstrdict_get: NULL for an empty dictionary, otherwise probe from
the home bucket of the hash. -/
def pstrdict_get (d : Dict) (key : List Nat) : Option (Option Nat) :=
  if d.count = 0 then some none
  else
    let h := d.hash key
    getLoop d key (hash_part h) (iter_init d h) (numBuckets d)

/-- Bucket probe loop of pstrdict_set after the reserve: overwrite on a
key match, insert into the first empty slot otherwise. -/
def setLoop (d : Dict) (key : List Nat) (value : Nat) (part : Nat) : Nat → Nat → Option (Int × Dict)
  | _, 0 => none
  | b, f + 1 =>
    let bk := d.buckets.getD b emptyBucket
    match matchLoopFind bk.pairs key (bucket_match bk.meta part) PSTRDICT_BUCKET_SIZE with
    | some i => some (PSTRING_OK, updateValue d b i value)
    | none =>
      let em := bucket_match bk.meta PSTRDICT_EMPTY
      if em ≠ 0 then some (PSTRING_OK, insertAt d b (bitset_next em) part key value)
      else setLoop d key value part (iter_next d b) f

/-- Bucket probe loop of pstrdict_insert after the reserve: a key match
is PSTRING_EEXIST, otherwise insert into the first empty slot. -/
def insertLoop (d : Dict) (key : List Nat) (value : Nat) (part : Nat) : Nat → Nat → Option (Int × Dict)
  | _, 0 => none
  | b, f + 1 =>
    let bk := d.buckets.getD b emptyBucket
    match matchLoopFind bk.pairs key (bucket_match bk.meta part) PSTRDICT_BUCKET_SIZE with
    | some _ => some (PSTRING_EEXIST, d)
    | none =>
      let em := bucket_match bk.meta PSTRDICT_EMPTY
      if em ≠ 0 then some (PSTRING_OK, insertAt d b (bitset_next em) part key value)
      else insertLoop d key value part (iter_next d b) f

/-- Bucket probe loop of pstrdict_remove: tombstone the matched slot, or
report PSTRING_ENOENT once a bucket with an empty slot is reached. -/
def removeLoop (d : Dict) (key : List Nat) (part : Nat) : Nat → Nat → Option (Int × Dict)
  | _, 0 => none
  | b, f + 1 =>
    let bk := d.buckets.getD b emptyBucket
    match matchLoopFind bk.pairs key (bucket_match bk.meta part) PSTRDICT_BUCKET_SIZE with
    | some i => some (PSTRING_OK, removeAt d b i)
    | none =>
      if bucket_match bk.meta PSTRDICT_EMPTY ≠ 0 then some (PSTRING_ENOENT, d)
      else removeLoop d key part (iter_next d b) f

/-- Bucket probe loop of pstrdict_finsert: no key comparison at all,
insert into the first empty slot found. -/
def finsertLoop (d : Dict) (key : List Nat) (value : Nat) (part : Nat) : Nat → Nat → Option (Int × Dict)
  | _, 0 => none
  | b, f + 1 =>
    let em := bucket_match (d.buckets.getD b emptyBucket).meta PSTRDICT_EMPTY
    if em ≠ 0 then some (PSTRING_OK, insertAt d b (bitset_next em) part key value)
    else finsertLoop d key value part (iter_next d b) f

/-- C pstrdict_reserve with grow_empty and grow_not_empty, the latter
with its pstrdict_finsert call inlined (reserve, then the empty-slot
probe).  The fuel bounds the depth of nested grow chains, decreasing at
each reserve call made by a rehash finsert; the outer none marks fuel
exhaustion, which no theorem below reaches.  grow_not_empty feeds
every pair slot of every old bucket to finsert: a none slot (never
written, a null key in C) is rejected with PSTRING_EINVAL and skipped,
but tombstoned slots still hold their pair and are reinserted. -/
def pstrdict_reserveGo : Nat → Dict → Nat → Option (Int × Dict)
  | 0, _, _ => none
  | f + 1, d, count =>
    if (d.count + count) * 10 ≤ d.capacity * 7 then some (PSTRING_OK, d)
    else
      let capacity := round_pow2 d.capacity * 2
      let capacity := if capacity < PSTRDICT_BUCKET_SIZE then PSTRDICT_BUCKET_SIZE else capacity
      if d.count = 0 then some (PSTRING_OK, grow_empty d capacity)
      else
        let tmp := grow_empty { buckets := [], count := 0, capacity := 0, hash := d.hash } capacity
        let step : Option Dict → Option DictPair → Option Dict := fun acc p =>
          match acc, p with
          | none, _ => none
          | some td, none => some td
          | some td, some pr =>
            if pr.value = 0 then some td
            else
              match pstrdict_reserveGo f td 1 with
              | none => none
              | some (c, td') =>
                if c ≠ PSTRING_OK then some td'
                else
                  let h := td'.hash pr.key
                  match finsertLoop td' pr.key pr.value (hash_part h) (iter_init td' h) (numBuckets td') with
                  | none => none
                  | some (_, td'') => some td''
        match d.buckets.foldl (fun acc bk => bk.pairs.foldl step acc) (some tmp) with
        | none => none
        | some td => some (PSTRING_OK, td)

/-- Fuel used by the top-level dictionary entry points for nested grow
chains; every trace below stays far beneath it. -/
def DICT_FUEL : Nat := 4

/-- C pstrdict_reserve. -/
def pstrdict_reserve (d : Dict) (count : Nat) : Option (Int × Dict) :=
  pstrdict_reserveGo DICT_FUEL d count

/-- C pstrdict_new with a caller-chosen hash function (the null-argument
defaults of the source are the standard allocator and pstrhash). -/
def pstrdict_new (hash : List Nat → Nat) : Dict :=
  { buckets := [], count := 0, capacity := 0, hash := hash }

/-- C pstrdict_set: reserve one slot (any failure surfaces as
PSTRING_ENOMEM), then probe.  A null value is PSTRING_EINVAL; null dict
and key pointers have no model counterpart. -/
def pstrdict_set (d : Dict) (key : List Nat) (value : Nat) : Option (Int × Dict) :=
  if value = 0 then some (PSTRING_EINVAL, d)
  else
    match pstrdict_reserveGo DICT_FUEL d 1 with
    | none => none
    | some (c, d') =>
      if c ≠ PSTRING_OK then some (PSTRING_ENOMEM, d')
      else
        let h := d'.hash key
        setLoop d' key value (hash_part h) (iter_init d' h) (numBuckets d')

/-- C pstrdict_insert: like pstrdict_set but failing with PSTRING_EEXIST
when the key is already present. -/
def pstrdict_insert (d : Dict) (key : List Nat) (value : Nat) : Option (Int × Dict) :=
  if value = 0 then some (PSTRING_EINVAL, d)
  else
    match pstrdict_reserveGo DICT_FUEL d 1 with
    | none => none
    | some (c, d') =>
      if c ≠ PSTRING_OK then some (PSTRING_ENOMEM, d')
      else
        let h := d'.hash key
        insertLoop d' key value (hash_part h) (iter_init d' h) (numBuckets d')

/-- C pstrdict_finsert: reserve then insert into the first empty slot
without comparing keys. -/
def pstrdict_finsert (d : Dict) (key : List Nat) (value : Nat) : Option (Int × Dict) :=
  if value = 0 then some (PSTRING_EINVAL, d)
  else
    match pstrdict_reserveGo DICT_FUEL d 1 with
    | none => none
    | some (c, d') =>
      if c ≠ PSTRING_OK then some (PSTRING_ENOMEM, d')
      else
        let h := d'.hash key
        finsertLoop d' key value (hash_part h) (iter_init d' h) (numBuckets d')

/-- C pstrdict_remove: PSTRING_ENOENT on an empty dictionary, otherwise
probe and tombstone. -/
def pstrdict_remove (d : Dict) (key : List Nat) : Option (Int × Dict) :=
  if d.count = 0 then some (PSTRING_ENOENT, d)
  else
    let h := d.hash key
    removeLoop d key (hash_part h) (iter_init d h) (numBuckets d)

/-- Hash function of the concrete dictionary trace below: a constant
hash, a legal pstrhash_fn choice for pstrdict_new. -/
def traceHash : List Nat → Nat := fun _ => 0

/-- Threads a dictionary operation through an accumulated trace,
recording its return code; none propagates the fuel-exhaustion marker
(never reached in the trace below). -/
def traceStep (acc : Option (List Int × Dict)) (op : Dict → Option (Int × Dict)) : Option (List Int × Dict) := do
  let (codes, d) ← acc
  let (c, d') ← op d
  pure (codes ++ [c], d')

/-- A concrete call sequence on a fresh dictionary: insert the one-byte
keys 1 to 11 (values 101 to 111), remove key 1, insert key 12, insert
key 13.  The final insert pushes the count past the 0.7 load factor of
capacity 16 and rehashes a non-empty dictionary through
grow_not_empty. -/
def traceDict : Option (List Int × Dict) :=
  let d0 := some (([] : List Int), pstrdict_new traceHash)
  let d1 := (List.range 11).foldl
    (fun acc n => traceStep acc (fun d => pstrdict_insert d [n + 1] (n + 101))) d0
  let d2 := traceStep d1 (fun d => pstrdict_remove d [1])
  let d3 := traceStep d2 (fun d => pstrdict_insert d [12] 112)
  traceStep d3 (fun d => pstrdict_insert d [13] 113)

/-- Well-formedness of a string value: the length is bounded by the
capacity and by the extent of the active buffer (owned buffers hold
capacity + 1 bytes, inline buffers PSTRING_SSO_SIZE + 1, slices at
least their capacity). -/
def WFStr (s : CStr) : Prop :=
  pstrlen s ≤ pstrcap s ∧ pstrlen s ≤ (pstrbuf s).length

/-- Claim C1: for every dictionary and sequence of set, insert and
remove calls that returned PSTRING_OK (including sequences that grow
past the 0.7 load factor and rehash a non-empty dictionary), get of a
removed key returns NULL.  The code violates this: in the concrete
trace every one of the 14 calls returns PSTRING_OK, key 1 is removed,
yet after the rehash triggered by the final insert, pstrdict_get
returns the old value 101 for key 1 again, because grow_not_empty
feeds tombstoned slots back into pstrdict_finsert. -/
theorem pstrdict_removed_key_resurrected_by_rehash :
    (traceDict.map Prod.fst) = some (List.replicate 14 PSTRING_OK) ∧
    (do let (_, d) ← traceDict; pstrdict_get d [1]) = some (some 101) := by
  decide

/-- Claim C3: pstrcmp is claimed to return the unsigned difference of
the first differing byte pair, here 0x80 - 0x01 = 127.  The code
subtracts signed chars and returns -129 on this one-byte input (which
also flips the lexicographic sign: 0x80 sorts above 0x01 as a byte). -/
theorem pstrcmp_scalar_signed_difference :
    pstrcmp (pstrwrap [128] 1 1) (pstrwrap [1] 1 1) = -129 := by decide

/-- Claim C7: pstrspn is claimed to return the length of the leading
in-set run, here 3 for the string aaa and the set a.  The scalar loop
of the source returns 0 when every byte of the string is in the set. -/
theorem pstrspn_all_in_set_returns_zero :
    pstrspn (pstrwrap [97, 97, 97] 3 3) [97] = 0 := by decide

/-- Claim C2: the hex round trip is claimed for all byte values 0..255.
For the byte 0x80 the encoder divides a signed char: -128 / 16 = -8,
so hexdigits[-8] is read out of bounds and no valid encoding is
produced (none models the out-of-bounds read). -/
theorem pstrenc_hex_high_byte_out_of_bounds :
    pstrenc_hex [] [128] = none := by decide

/-- Claim C6: a successful decoder call is claimed to preserve the
destination length and append.  Decoding the hex string 4142 into a
destination already holding the two bytes AB leaves the length at 2
(pstrlen(src) / 2) instead of 4: pstrdec_hex sets the length without
adding the old one, so the appended bytes are dropped from the value. -/
theorem pstrdec_hex_drops_destination_length :
    pstrdec_hex [65, 66] [52, 49, 52, 50] = (PSTRING_OK, [65, 66]) := by decide

/-- Claim C5: after pstrfree the value is claimed to be an empty inline
value and a second pstrfree a no-op.  For an owned three-byte string
the code deallocates the buffer but writes nothing into the value: the
length stays 3, the variant stays non-inline, and a second pstrfree
invokes deallocate again (the Bool component records the call). -/
theorem pstrfree_leaves_value_intact :
    pstrfree (pstrnew [104, 105, 99] 3 true) = (pstrnew [104, 105, 99] 3 true, true) ∧
    pstrlen (pstrnew [104, 105, 99] 3 true) = 3 ∧
    pstrsso (pstrnew [104, 105, 99] 3 true) = false ∧
    pstrfree (pstrfree (pstrnew [104, 105, 99] 3 true)).1 = (pstrnew [104, 105, 99] 3 true, true) := by
  decide

/-- Claim C4 counterexample: pstrwrap accepts an explicit capacity
larger than the length, producing a live slice with cap 5 and len 2,
and a pstrreserve that needs to grow that slice fails with
PSTRING_ENOMEM, not PSTRING_EINVAL (the slice itself is unchanged). -/
theorem pstrwrap_slice_cap_exceeds_len :
    pstrcap (pstrwrap [104, 101, 108, 108, 111] 2 5) = 5 ∧
    pstrlen (pstrwrap [104, 101, 108, 108, 111] 2 5) = 2 ∧
    pstrreserve (pstrwrap [104, 101, 108, 108, 111] 2 5) 10 =
      (PSTRING_ENOMEM, pstrwrap [104, 101, 108, 108, 111] 2 5) := by decide

/-- Helper for claim C8: with an empty search string (and an empty
replacement) every iteration of the replacement loop matches at the
cursor and rewrites the string to itself, so the loop finishes its max
iterations and reports PSTRING_OK with the string unchanged. -/
lemma pstrreplLoop_empty_needle (f : Nat) : ∀ s c, pstrreplLoop [] [] f s c = (PSTRING_OK, s) := by
  induction f with
  | zero => intro s c; rfl
  | succ f ih =>
    intro s c
    have hfind : strstrAt s c [] = some c := by
      simp [strstrAt]
    simp only [pstrreplLoop, hfind]
    simp only [List.length_nil, Nat.add_zero, List.append_nil, List.take_append_drop]
    exact ih s c

/-- Claim C8: pstrrepl with an empty search string is claimed to be
rejected with PSTRING_EINVAL, leaving s unchanged.  The source never
checks the search length: with src and t empty and max 0 (remapped to
SIZE_MAX) the loop runs its 2^64 - 1 iterations matching the empty
string at the cursor each time and returns PSTRING_OK, not
PSTRING_EINVAL (with a non-empty t it would instead grow s each
iteration until the allocator fails). -/
theorem pstrrepl_empty_needle_not_rejected :
    pstrrepl [97, 98, 99] [] [] 0 = (PSTRING_OK, [97, 98, 99]) := by
  unfold pstrrepl
  simp only [if_pos rfl]
  exact pstrreplLoop_empty_needle _ _ _

/-- Claim C4, amended: pstrslice and pstrrange always produce slices
with capacity equal to length, as does pstrwrap when its capacity
argument is zero; pstrgrow on any slice (non-inline, no allocator)
fails with PSTRING_EINVAL leaving it unchanged; and a pstrreserve that
needs to grow a slice fails with PSTRING_ENOMEM (the inner EINVAL is
reported as ENOMEM), leaving it unchanged. -/
theorem slice_cap_and_resize_behavior
    (s : CStr) (a b n count : Nat) (buf : List Nat) (len : Nat)
    (t : CStr) (ht : pstrsso t = false) (ha : pstrallocator t = false)
    (hc : 0 < count) (hneed : pstrcap t < pstrlen t + count) :
    pstrcap (pstrslice s a b) = pstrlen (pstrslice s a b) ∧
    pstrcap (pstrrange s a b) = pstrlen (pstrrange s a b) ∧
    pstrcap (pstrwrap buf len 0) = pstrlen (pstrwrap buf len 0) ∧
    pstrgrow t n = (PSTRING_EINVAL, t) ∧
    pstrreserve t count = (PSTRING_ENOMEM, t) := by
  have hgrow : ∀ m : Nat, pstrgrow t m = (PSTRING_EINVAL, t) := by
    intro m
    unfold pstrgrow
    rw [ht, ha]
    simp
  refine ⟨?_, ?_, ?_, hgrow n, ?_⟩
  · simp [pstrslice, pstrcap, pstrlen]
  · simp [pstrrange, pstrcap, pstrlen]
  · simp [pstrwrap, pstrcap, pstrlen]
  · unfold pstrreserve
    rw [hgrow (GROWTH (pstrlen t) count)]
    have hcond : (count > 0 && pstrlen t + count > pstrcap t) = true := by
      simp only [Bool.and_eq_true, decide_eq_true_eq]
      exact ⟨hc, hneed⟩
    rw [hcond]
    simp [PSTRING_EINVAL, PSTRING_OK]

/-- Witness for claim C4: the amended statement applied to the concrete
slice wrap([104, 101], len 1, cap 2). -/
theorem slice_cap_and_resize_behavior_witness :
    pstrsso (pstrwrap [104, 101] 1 2) = false ∧
    pstrallocator (pstrwrap [104, 101] 1 2) = false ∧
    0 < 5 ∧ pstrcap (pstrwrap [104, 101] 1 2) < pstrlen (pstrwrap [104, 101] 1 2) + 5 ∧
    pstrgrow (pstrwrap [104, 101] 1 2) 3 = (PSTRING_EINVAL, pstrwrap [104, 101] 1 2) ∧
    pstrreserve (pstrwrap [104, 101] 1 2) 5 = (PSTRING_ENOMEM, pstrwrap [104, 101] 1 2) := by
  refine ⟨by decide, by decide, by decide, by decide, ?_, ?_⟩
  · exact (slice_cap_and_resize_behavior (pstrwrap [104, 101] 1 2) 0 0 3 5 [] 0
      (pstrwrap [104, 101] 1 2) (by decide) (by decide) (by decide) (by decide)).2.2.2.1
  · exact (slice_cap_and_resize_behavior (pstrwrap [104, 101] 1 2) 0 0 3 5 [] 0
      (pstrwrap [104, 101] 1 2) (by decide) (by decide) (by decide) (by decide)).2.2.2.2

/-- Claim C10: for every well-formed string value and every index,
pstrget returns the byte at the index when it is below the length (and
the access is inside the buffer, so no out-of-bounds dereference
happens), and returns the null character for every index at or beyond
the length. -/
theorem pstrget_total (s : CStr) (hw : WFStr s) (i : Nat) :
    (∀ _ : i < pstrlen s, ∃ hb : i < (pstrbuf s).length, pstrget s i = (pstrbuf s).get ⟨i, hb⟩) ∧
    (pstrlen s ≤ i → pstrget s i = 0) := by
  constructor
  · intro hi
    have hb : i < (pstrbuf s).length := lt_of_lt_of_le hi hw.2
    refine ⟨hb, ?_⟩
    simp [pstrget, hi, List.getD, List.getElem?_eq_getElem hb]
  · intro h
    simp [pstrget, Nat.not_lt.2 h]

/-- Witness for claim C10: pstrget on the inline value new("hi") is the
stored byte in bounds and the null character out of bounds. -/
theorem pstrget_total_witness :
    WFStr (pstrnew [104, 105] 2 false) ∧
    pstrget (pstrnew [104, 105] 2 false) 5 = 0 ∧
    pstrget (pstrnew [104, 105] 2 false) 1 = 105 :=
  ⟨⟨by decide, by decide⟩,
   (pstrget_total (pstrnew [104, 105] 2 false) ⟨by decide, by decide⟩ 5).2 (by decide),
   by decide⟩

/-- Disjoint bitwise or is addition: when b fits in k bits, a shifted
left by k or-ed with b is the sum. -/
lemma lor_shiftLeft_eq_add (a b k : Nat) (hb : b < 2 ^ k) : (a <<< k) ||| b = a * 2 ^ k + b := by
  apply Nat.eq_of_testBit_eq
  intro i
  rw [Nat.testBit_lor, Nat.mul_comm, Nat.testBit_mul_pow_two_add a hb i]
  by_cases h : i < k
  · have h2 : (a <<< k).testBit i = false := by
      rw [Nat.testBit_shiftLeft]
      simp [Nat.not_le.2 h]
    simp [h, h2]
  · have hbf : b.testBit i = false :=
      Nat.testBit_eq_false_of_lt (lt_of_lt_of_le hb (Nat.pow_le_pow_right (by norm_num) (Nat.not_lt.1 h)))
    rw [Nat.testBit_shiftLeft]
    simp [h, hbf, Nat.not_lt.1 h]

lemma asciiFact : ∀ c < 128, c &&& 0x80 = 0 := by decide

lemma mask31Fact : ∀ q < 32, q &&& 0x1F = q := by decide

lemma lead2Facts : ∀ q < 32, ((q ||| 0xC0) &&& 0x80 ≠ 0) ∧ ((q ||| 0xC0) &&& 0xF8 ≠ 0xF0) ∧
    ((q ||| 0xC0) &&& 0xF0 ≠ 0xE0) ∧ ((q ||| 0xC0) &&& 0xE0 = 0xC0) ∧ ((q ||| 0xC0) &&& 0x1F = q) := by decide

lemma contFacts : ∀ r < 64, ((r ||| 0x80) &&& 0xC0 = 0x80) ∧ ((r ||| 0x80) &&& 0x3F = r) := by decide

lemma and63 (c : Nat) : c &&& 63 = c % 64 := by
  have := Nat.and_pow_two_sub_one_eq_mod c 6
  norm_num at this
  exact this

/-- Unfolds one byte of the decoder loop under the output limit. -/
lemma decGo_cons (c : Nat) (rest : List Nat) (st : Utf8State) (acc : List Nat) (max : Nat)
    (hm : acc.length < max) :
    pstrdec_utf8Go (c :: rest) st acc max =
      match utf8Step st c with
      | (st', none) => pstrdec_utf8Go rest st' acc max
      | (st', some v) => pstrdec_utf8Go rest st' (acc ++ [v]) max := by
  simp only [pstrdec_utf8Go, if_pos hm]

lemma utf8Step_lead2 (st : Utf8State) (hst : st.left = 0) (q : Nat) (hq : q < 32) :
    utf8Step st (q ||| 0xC0) = (⟨1, 63, 0, q <<< 6, 128⟩, none) := by
  obtain ⟨h80, hF8, hF0, hE0, h31⟩ := lead2Facts q hq
  unfold utf8Step
  rw [if_pos hst, if_neg h80, if_neg hF8, if_neg hF0, if_pos hE0]
  show utf8Accum ⟨2, 31, 6, 0, 128⟩ (q ||| 192) = (⟨1, 63, 0, q <<< 6, 128⟩, none)
  unfold utf8Accum
  norm_num [h31, Nat.zero_or]

lemma utf8Step_cont (st : Utf8State) (hst : st.left ≠ 0) (r : Nat) (hr : r < 64) :
    utf8Step st (r ||| 0x80) =
      utf8Accum st (r ||| 0x80) := by
  obtain ⟨hC0, h3F⟩ := contFacts r hr
  unfold utf8Step
  rw [if_neg hst, if_neg (by rw [hC0]; exact fun h => h rfl)]

lemma lead3Facts : ∀ q < 16, ((q ||| 0xE0) &&& 0x80 ≠ 0) ∧ ((q ||| 0xE0) &&& 0xF8 ≠ 0xF0) ∧
    ((q ||| 0xE0) &&& 0xF0 = 0xE0) ∧ ((q ||| 0xE0) &&& 0x0F = q) := by decide

lemma lead4Facts : ∀ q < 8, ((q ||| 0xF0) &&& 0x80 ≠ 0) ∧ ((q ||| 0xF0) &&& 0xF8 = 0xF0) ∧
    ((q ||| 0xF0) &&& 0x07 = q) := by decide

lemma mask15Fact : ∀ q < 16, q &&& 0x0F = q := by decide

lemma mask7Fact : ∀ q < 8, q &&& 0x07 = q := by decide

lemma utf8Step_lead3 (st : Utf8State) (hst : st.left = 0) (q : Nat) (hq : q < 16) :
    utf8Step st (q ||| 0xE0) = (⟨2, 63, 6, q <<< 12, 2048⟩, none) := by
  obtain ⟨h80, hF8, hF0, h15⟩ := lead3Facts q hq
  unfold utf8Step
  rw [if_pos hst, if_neg h80, if_neg hF8, if_pos hF0]
  show utf8Accum ⟨3, 15, 12, 0, 2048⟩ (q ||| 224) = (⟨2, 63, 6, q <<< 12, 2048⟩, none)
  unfold utf8Accum
  norm_num [h15, Nat.zero_or]

lemma utf8Step_lead4 (st : Utf8State) (hst : st.left = 0) (q : Nat) (hq : q < 8) :
    utf8Step st (q ||| 0xF0) = (⟨3, 63, 12, q <<< 18, 65536⟩, none) := by
  obtain ⟨h80, hF8, h7⟩ := lead4Facts q hq
  unfold utf8Step
  rw [if_pos hst, if_neg h80, if_pos hF8]
  show utf8Accum ⟨4, 7, 18, 0, 65536⟩ (q ||| 240) = (⟨3, 63, 12, q <<< 18, 65536⟩, none)
  unfold utf8Accum
  norm_num [h7, Nat.zero_or]

lemma utf8Step_cont_mid (k s code mn r : Nat) (hk : k ≠ 0) (hk1 : k - 1 ≠ 0) (hr : r < 64) :
    utf8Step ⟨k, 63, s, code, mn⟩ (r ||| 0x80) =
      (⟨k - 1, 63, s - 6, code ||| ((r ||| 0x80) &&& 63) <<< s, mn⟩, none) := by
  obtain ⟨hC0, h3F⟩ := contFacts r hr
  unfold utf8Step
  rw [if_neg hk, if_neg (not_not_intro hC0)]
  unfold utf8Accum
  simp [hk1]

lemma utf8Step_cont_last (s code mn r : Nat) (hr : r < 64)
    (hge : ¬ code ||| (r <<< s) < mn) :
    utf8Step ⟨1, 63, s, code, mn⟩ (r ||| 0x80) =
      (⟨0, 63, s - 6, code ||| (r <<< s), mn⟩, some (code ||| (r <<< s))) := by
  obtain ⟨hC0, h3F⟩ := contFacts r hr
  unfold utf8Step
  rw [if_neg (by norm_num : ¬ (1 : Nat) = 0), if_neg (not_not_intro hC0)]
  unfold utf8Accum
  norm_num [h3F, hge]

/-- When no sequence is in progress (left = 0) the decoder behavior does
not depend on the other state fields: they are always rewritten before
being read.  This justifies starting the C loop with mask, shift, code
and min uninitialized. -/
lemma decGo_state_congr : ∀ (bytes : List Nat) (st1 st2 : Utf8State) (acc : List Nat) (max : Nat),
    st1.left = 0 → st2.left = 0 →
    pstrdec_utf8Go bytes st1 acc max = pstrdec_utf8Go bytes st2 acc max := by
  intro bytes
  induction bytes with
  | nil => intro st1 st2 acc max _ _; rfl
  | cons c rest ih =>
    intro st1 st2 acc max h1 h2
    by_cases hm : acc.length < max
    · rw [decGo_cons c rest st1 acc max hm, decGo_cons c rest st2 acc max hm]
      by_cases hA : c &&& 0x80 = 0
      · have e1 : utf8Step st1 c = (st1, some c) := by unfold utf8Step; rw [if_pos h1, if_pos hA]
        have e2 : utf8Step st2 c = (st2, some c) := by unfold utf8Step; rw [if_pos h2, if_pos hA]
        rw [e1, e2]
        exact ih st1 st2 (acc ++ [c]) max h1 h2
      · by_cases hB : c &&& 0xF8 = 0xF0
        · have e1 : utf8Step st1 c = utf8Accum ⟨4, (1 <<< 3) - 1, 18, 0, overlongTable.getD 3 0⟩ c := by
            unfold utf8Step; rw [if_pos h1, if_neg hA, if_pos hB]
          have e2 : utf8Step st2 c = utf8Accum ⟨4, (1 <<< 3) - 1, 18, 0, overlongTable.getD 3 0⟩ c := by
            unfold utf8Step; rw [if_pos h2, if_neg hA, if_pos hB]
          rw [e1, e2]
        · by_cases hC : c &&& 0xF0 = 0xE0
          · have e1 : utf8Step st1 c = utf8Accum ⟨3, (1 <<< 4) - 1, 12, 0, overlongTable.getD 2 0⟩ c := by
              unfold utf8Step; rw [if_pos h1, if_neg hA, if_neg hB, if_pos hC]
            have e2 : utf8Step st2 c = utf8Accum ⟨3, (1 <<< 4) - 1, 12, 0, overlongTable.getD 2 0⟩ c := by
              unfold utf8Step; rw [if_pos h2, if_neg hA, if_neg hB, if_pos hC]
            rw [e1, e2]
          · by_cases hD : c &&& 0xE0 = 0xC0
            · have e1 : utf8Step st1 c = utf8Accum ⟨2, (1 <<< 5) - 1, 6, 0, overlongTable.getD 1 0⟩ c := by
                unfold utf8Step; rw [if_pos h1, if_neg hA, if_neg hB, if_neg hC, if_pos hD]
              have e2 : utf8Step st2 c = utf8Accum ⟨2, (1 <<< 5) - 1, 6, 0, overlongTable.getD 1 0⟩ c := by
                unfold utf8Step; rw [if_pos h2, if_neg hA, if_neg hB, if_neg hC, if_pos hD]
              rw [e1, e2]
            · have e1 : utf8Step st1 c = ({st1 with left := 0}, some 0xFFFD) := by
                unfold utf8Step; rw [if_pos h1, if_neg hA, if_neg hB, if_neg hC, if_neg hD]
              have e2 : utf8Step st2 c = ({st2 with left := 0}, some 0xFFFD) := by
                unfold utf8Step; rw [if_pos h2, if_neg hA, if_neg hB, if_neg hC, if_neg hD]
              rw [e1, e2]
              exact ih _ _ (acc ++ [0xFFFD]) max rfl rfl
    · simp only [pstrdec_utf8Go, if_neg hm]

lemma lor_eq_add_of_mod (a b k : Nat) (ha : a % 2 ^ k = 0) (hb : b < 2 ^ k) : a ||| b = a + b := by
  have h := lor_shiftLeft_eq_add (a / 2 ^ k) b k hb
  rw [Nat.shiftLeft_eq] at h
  rw [Nat.div_mul_cancel (Nat.dvd_of_mod_eq_zero ha)] at h
  exact h

lemma pow6 : (2 : Nat) ^ 6 = 64 := by norm_num

lemma pow12 : (2 : Nat) ^ 12 = 4096 := by norm_num

lemma pow18 : (2 : Nat) ^ 18 = 262144 := by norm_num

/-- Decoding the encoding of one admissible codepoint from a clean state
consumes exactly its bytes and emits exactly that codepoint, returning
to a clean state. -/
lemma decGo_enc_cp (c : Nat) (hv : c ≤ 0x10FFFF) (rest acc : List Nat) (max : Nat)
    (hm : acc.length < max) (st : Utf8State) (hst : st.left = 0) :
    pstrdec_utf8Go (writeutf8 c ++ rest) st acc max =
      pstrdec_utf8Go rest utf8Zero (acc ++ [c]) max := by
  by_cases h1 : c ≤ 0x7F
  · have hw : writeutf8 c = [c] := by unfold writeutf8; rw [if_pos h1]
    have hstep : utf8Step st c = (st, some c) := by
      unfold utf8Step; rw [if_pos hst, if_pos (asciiFact c (by omega))]
    rw [hw]
    show pstrdec_utf8Go (c :: rest) st acc max = _
    rw [decGo_cons c rest st acc max hm, hstep]
    exact decGo_state_congr rest st utf8Zero (acc ++ [c]) max hst rfl
  · by_cases h2 : c ≤ 0x7FF
    · have hq : c >>> 6 < 32 := by
        rw [Nat.shiftRight_eq_div_pow, pow6]; omega
      have hr : c &&& 63 < 64 := by rw [and63]; omega
      have hw : writeutf8 c = [((c >>> 6) &&& 31) ||| 192, (c &&& 63) ||| 128] := by
        unfold writeutf8; rw [if_neg h1, if_pos h2]
      have hcode : ((c >>> 6) <<< 6) ||| ((c &&& 63) <<< 0) = c := by
        rw [Nat.shiftLeft_zero, lor_shiftLeft_eq_add (c >>> 6) (c &&& 63) 6 (by rw [and63, pow6]; omega)]
        rw [Nat.shiftRight_eq_div_pow, and63, pow6]
        omega
      rw [hw, mask31Fact (c >>> 6) hq]
      show pstrdec_utf8Go (((c >>> 6) ||| 192) :: ((c &&& 63) ||| 128) :: rest) st acc max = _
      rw [decGo_cons _ _ st acc max hm, utf8Step_lead2 st hst (c >>> 6) hq]
      show pstrdec_utf8Go (((c &&& 63) ||| 128) :: rest) ⟨1, 63, 0, (c >>> 6) <<< 6, 128⟩ acc max = _
      rw [decGo_cons _ _ _ acc max hm,
        utf8Step_cont_last 0 ((c >>> 6) <<< 6) 128 (c &&& 63) hr (by rw [hcode]; omega)]
      show pstrdec_utf8Go rest ⟨0, 63, 0 - 6, ((c >>> 6) <<< 6) ||| ((c &&& 63) <<< 0), 128⟩
        (acc ++ [((c >>> 6) <<< 6) ||| ((c &&& 63) <<< 0)]) max = _
      rw [hcode]
      exact decGo_state_congr rest _ utf8Zero (acc ++ [c]) max rfl rfl
    · by_cases h3 : c ≤ 0xFFFF
      · have hq : c >>> 12 < 16 := by
          rw [Nat.shiftRight_eq_div_pow, pow12]; omega
        have hm1 : (c >>> 6) &&& 63 < 64 := by rw [and63]; omega
        have hr : c &&& 63 < 64 := by rw [and63]; omega
        have hw : writeutf8 c =
            [((c >>> 12) &&& 15) ||| 224, ((c >>> 6) &&& 63) ||| 128, (c &&& 63) ||| 128] := by
          unfold writeutf8; rw [if_neg h1, if_neg h2, if_pos h3]
        have hb1 : ((c >>> 6) &&& 63) <<< 6 < 2 ^ 12 := by
          rw [Nat.shiftLeft_eq, pow6, pow12, and63]; omega
        have hcode1 : ((c >>> 12) <<< 12) ||| (((c >>> 6) &&& 63) <<< 6) =
            c / 4096 * 4096 + c / 64 % 64 * 64 := by
          rw [lor_shiftLeft_eq_add _ _ 12 hb1, Nat.shiftLeft_eq,
            Nat.shiftRight_eq_div_pow, Nat.shiftRight_eq_div_pow, and63, pow6, pow12]
        have hcode : (((c >>> 12) <<< 12) ||| (((c >>> 6) &&& 63) <<< 6)) ||| ((c &&& 63) <<< 0) = c := by
          rw [Nat.shiftLeft_zero, hcode1,
            lor_eq_add_of_mod _ _ 6 (by rw [pow6]; omega) (by rw [and63, pow6]; omega), and63]
          omega
        rw [hw, mask15Fact (c >>> 12) hq]
        show pstrdec_utf8Go (((c >>> 12) ||| 224) :: (((c >>> 6) &&& 63) ||| 128) ::
          ((c &&& 63) ||| 128) :: rest) st acc max = _
        rw [decGo_cons _ _ st acc max hm, utf8Step_lead3 st hst (c >>> 12) hq]
        show pstrdec_utf8Go ((((c >>> 6) &&& 63) ||| 128) :: ((c &&& 63) ||| 128) :: rest)
          ⟨2, 63, 6, (c >>> 12) <<< 12, 2048⟩ acc max = _
        rw [decGo_cons _ _ _ acc max hm,
          utf8Step_cont_mid 2 6 ((c >>> 12) <<< 12) 2048 ((c >>> 6) &&& 63)
            (by omega) (by omega) hm1]
        rw [(contFacts ((c >>> 6) &&& 63) hm1).2]
        show pstrdec_utf8Go (((c &&& 63) ||| 128) :: rest)
          ⟨1, 63, 0, ((c >>> 12) <<< 12) ||| (((c >>> 6) &&& 63) <<< 6), 2048⟩ acc max = _
        rw [decGo_cons _ _ _ acc max hm,
          utf8Step_cont_last 0 (((c >>> 12) <<< 12) ||| (((c >>> 6) &&& 63) <<< 6)) 2048
            (c &&& 63) hr (by rw [hcode]; omega)]
        show pstrdec_utf8Go rest
          ⟨0, 63, 0 - 6, (((c >>> 12) <<< 12) ||| (((c >>> 6) &&& 63) <<< 6)) ||| ((c &&& 63) <<< 0), 2048⟩
          (acc ++ [(((c >>> 12) <<< 12) ||| (((c >>> 6) &&& 63) <<< 6)) ||| ((c &&& 63) <<< 0)]) max = _
        rw [hcode]
        exact decGo_state_congr rest _ utf8Zero (acc ++ [c]) max rfl rfl
      · have hq : c >>> 18 < 8 := by
          rw [Nat.shiftRight_eq_div_pow, pow18]; omega
        have hm2 : (c >>> 12) &&& 63 < 64 := by rw [and63]; omega
        have hm1 : (c >>> 6) &&& 63 < 64 := by rw [and63]; omega
        have hr : c &&& 63 < 64 := by rw [and63]; omega
        have hw : writeutf8 c =
            [((c >>> 18) &&& 7) ||| 240, ((c >>> 12) &&& 63) ||| 128,
             ((c >>> 6) &&& 63) ||| 128, (c &&& 63) ||| 128] := by
          unfold writeutf8; rw [if_neg h1, if_neg h2, if_neg h3, if_pos hv]
        have hb2 : ((c >>> 12) &&& 63) <<< 12 < 2 ^ 18 := by
          rw [Nat.shiftLeft_eq, pow12, pow18, and63]; omega
        have hcode1 : ((c >>> 18) <<< 18) ||| (((c >>> 12) &&& 63) <<< 12) =
            c / 262144 * 262144 + c / 4096 % 64 * 4096 := by
          rw [lor_shiftLeft_eq_add _ _ 18 hb2, Nat.shiftLeft_eq,
            Nat.shiftRight_eq_div_pow, Nat.shiftRight_eq_div_pow, and63, pow12, pow18]
        have hcode2 : (((c >>> 18) <<< 18) ||| (((c >>> 12) &&& 63) <<< 12)) ||| (((c >>> 6) &&& 63) <<< 6) =
            c / 262144 * 262144 + c / 4096 % 64 * 4096 + c / 64 % 64 * 64 := by
          rw [hcode1,
            lor_eq_add_of_mod _ _ 12 (by rw [pow12]; omega)
              (by rw [Nat.shiftLeft_eq, pow6, pow12, and63]; omega),
            Nat.shiftLeft_eq, Nat.shiftRight_eq_div_pow, and63, pow6]
        have hcode : ((((c >>> 18) <<< 18) ||| (((c >>> 12) &&& 63) <<< 12)) ||| (((c >>> 6) &&& 63) <<< 6)) |||
            ((c &&& 63) <<< 0) = c := by
          rw [Nat.shiftLeft_zero, hcode2,
            lor_eq_add_of_mod _ _ 6 (by rw [pow6]; omega) (by rw [and63, pow6]; omega), and63]
          omega
        rw [hw, mask7Fact (c >>> 18) hq]
        show pstrdec_utf8Go (((c >>> 18) ||| 240) :: (((c >>> 12) &&& 63) ||| 128) ::
          (((c >>> 6) &&& 63) ||| 128) :: ((c &&& 63) ||| 128) :: rest) st acc max = _
        rw [decGo_cons _ _ st acc max hm, utf8Step_lead4 st hst (c >>> 18) hq]
        show pstrdec_utf8Go ((((c >>> 12) &&& 63) ||| 128) :: (((c >>> 6) &&& 63) ||| 128) ::
          ((c &&& 63) ||| 128) :: rest) ⟨3, 63, 12, (c >>> 18) <<< 18, 65536⟩ acc max = _
        rw [decGo_cons _ _ _ acc max hm,
          utf8Step_cont_mid 3 12 ((c >>> 18) <<< 18) 65536 ((c >>> 12) &&& 63)
            (by omega) (by omega) hm2]
        rw [(contFacts ((c >>> 12) &&& 63) hm2).2]
        show pstrdec_utf8Go ((((c >>> 6) &&& 63) ||| 128) :: ((c &&& 63) ||| 128) :: rest)
          ⟨2, 63, 6, ((c >>> 18) <<< 18) ||| (((c >>> 12) &&& 63) <<< 12), 65536⟩ acc max = _
        rw [decGo_cons _ _ _ acc max hm,
          utf8Step_cont_mid 2 6 (((c >>> 18) <<< 18) ||| (((c >>> 12) &&& 63) <<< 12)) 65536
            ((c >>> 6) &&& 63) (by omega) (by omega) hm1]
        rw [(contFacts ((c >>> 6) &&& 63) hm1).2]
        show pstrdec_utf8Go (((c &&& 63) ||| 128) :: rest)
          ⟨1, 63, 0, (((c >>> 18) <<< 18) ||| (((c >>> 12) &&& 63) <<< 12)) ||| (((c >>> 6) &&& 63) <<< 6), 65536⟩
          acc max = _
        rw [decGo_cons _ _ _ acc max hm,
          utf8Step_cont_last 0
            ((((c >>> 18) <<< 18) ||| (((c >>> 12) &&& 63) <<< 12)) ||| (((c >>> 6) &&& 63) <<< 6)) 65536
            (c &&& 63) hr (by rw [hcode]; omega)]
        show pstrdec_utf8Go rest
          ⟨0, 63, 0 - 6, ((((c >>> 18) <<< 18) ||| (((c >>> 12) &&& 63) <<< 12)) ||| (((c >>> 6) &&& 63) <<< 6)) ||| ((c &&& 63) <<< 0), 65536⟩
          (acc ++ [((((c >>> 18) <<< 18) ||| (((c >>> 12) &&& 63) <<< 12)) ||| (((c >>> 6) &&& 63) <<< 6)) ||| ((c &&& 63) <<< 0)]) max = _
        rw [hcode]
        exact decGo_state_congr rest _ utf8Zero (acc ++ [c]) max rfl rfl

/-- Decoding the concatenated encodings of a sequence of admissible
codepoints yields exactly that sequence and consumes all input as long
as the output array has room for them. -/
lemma decGo_enc_list : ∀ (cs : List Nat), (∀ c ∈ cs, c ≤ 0x10FFFF) →
    ∀ (acc : List Nat) (max : Nat), acc.length + cs.length ≤ max →
    pstrdec_utf8Go ((cs.map writeutf8).flatten) utf8Zero acc max = (acc ++ cs, []) := by
  intro cs
  induction cs with
  | nil => intro _ acc max _; simp [pstrdec_utf8Go]
  | cons c cs ih =>
    intro hv acc max hlen
    have hm : acc.length < max := by simp at hlen; omega
    have hstep := decGo_enc_cp c (hv c (by simp)) ((cs.map writeutf8).flatten) acc max hm utf8Zero rfl
    calc pstrdec_utf8Go (((c :: cs).map writeutf8).flatten) utf8Zero acc max
        = pstrdec_utf8Go (writeutf8 c ++ (cs.map writeutf8).flatten) utf8Zero acc max := by
          simp [List.map_cons, List.flatten_cons]
      _ = pstrdec_utf8Go ((cs.map writeutf8).flatten) utf8Zero (acc ++ [c]) max := hstep
      _ = ((acc ++ [c]) ++ cs, []) := by
          apply ih (fun x hx => hv x (by simp [hx])) (acc ++ [c]) max
          simp at hlen ⊢
          omega
      _ = (acc ++ c :: cs, []) := by simp

/-- Claim C9: for every finite sequence of codepoints in the inclusive
range 0 to 0x10FFFF excluding the surrogate range 0xD800 to 0xDFFF,
decoding with pstrdec_utf8 (with room for exactly the sequence) the
bytes produced by pstrenc_utf8 returns PSTRING_OK and yields exactly
the original codepoint sequence. -/
theorem utf8_roundtrip (cs : List Nat)
    (hv : ∀ c ∈ cs, c ≤ 0x10FFFF ∧ (c < 0xD800 ∨ 0xDFFF < c)) :
    pstrdec_utf8 cs.length (pstrenc_utf8 [] cs) = (PSTRING_OK, cs) := by
  unfold pstrdec_utf8 pstrenc_utf8
  rw [List.nil_append]
  rw [decGo_enc_list cs (fun c hc => (hv c hc).1) [] cs.length (by simp)]
  simp

/-- Witness for claim C9: the round trip at the concrete sequence
dollar sign, white smiling face, and the maximal codepoint 0x10FFFF. -/
theorem utf8_roundtrip_witness :
    (∀ c ∈ [0x24, 0x263A, 0x10FFFF], c ≤ 0x10FFFF ∧ (c < 0xD800 ∨ 0xDFFF < c)) ∧
    pstrdec_utf8 3 (pstrenc_utf8 [] [0x24, 0x263A, 0x10FFFF]) = (PSTRING_OK, [0x24, 0x263A, 0x10FFFF]) :=
  ⟨by decide, utf8_roundtrip [0x24, 0x263A, 0x10FFFF] (by decide)⟩
